import Mathlib

/- Verification development for the `OakEvolutionLoop` evolutionary loop driver
(file `src/unnamed/part_001`, class `OakEvolutionLoop`, together with the data
interfaces of `src/src/interfaces/IMetaAgent.ts`).

Embedding conventions:
* JS numbers are modelled as rationals (`ℚ`); the sentinel `-Infinity` used to
  initialise `bestFitness` is modelled with `WithBot ℚ` (`⊥` = `-Infinity`).
* Agents are JS object references.  We model a reference as a natural number
  (`AgentRef`) and the mutable object graph as a `Heap : AgentRef → AgentState`.
  Reference identity (`===`) is equality of `AgentRef`s.
* Every agent capability call is asynchronous and may throw.  The loop treats
  agents as opaque, so an agent's behaviour is modelled by flags and functions
  stored in its `AgentState`: which Oak-cycle capability calls throw, whether
  `learn` throws, and what `act` returns (`none` models an `act` that rejects or
  does not settle within `evaluationTimeout`, which the `Promise.race` in
  `evaluateAgent` turns into an exception).  A successful `learn` appends the
  experience to the agent's internal `learned` log (the loop never reads it; it
  only witnesses whether the loop modified the agent).
* Every `Math.random()` draw is an oracle input: each random-consuming source
  function receives the sequence of draws made by that call site.  `Date.now()`
  / `new Date()` values and the per-generation wall-clock `runtime` are likewise
  oracle inputs, and JS `Math.sqrt` (used only for the diversity metric) is an
  oracle function `ℚ → ℚ`.
* `Promise.all` batches: within a batch every agent's cycle reads only its own
  slot's draws and per-agent state, and the flags consulted by control flow are
  never written, so the concurrent schedule is observationally the in-order
  traversal; the embedding processes agents in population order.
-/

namespace OakSpec

/-- JS `string | number` values appearing in `parameters` / `context` records. -/
inductive ParamVal
  | num (q : ℚ)
  | str (s : String)
  deriving DecidableEq

/-- Interface `IState` (IMetaAgent.ts): id, feature map (string keys, numeric
values, insertion order), timestamp, free-form context record. -/
structure IState where
  id : String
  features : List (String × ℚ)
  timestamp : ℕ
  context : List (String × ParamVal)
  deriving DecidableEq

/-- Interface `IAction`: a type tag plus named parameters. -/
structure IAction where
  type : String
  parameters : List (String × ParamVal)
  expectedOutcome : Option String := none
  deriving DecidableEq

/-- Interface `IReward`. -/
structure IReward where
  value : ℚ
  source : String
  timestamp : ℕ
  metadata : Option (List (String × ℚ)) := none
  deriving DecidableEq

/-- Interface `IExperience`: the tuple consumed by `learn`. -/
structure IExperience where
  state : IState
  action : IAction
  reward : IReward
  nextState : IState
  done : Bool
  deriving DecidableEq

/-- `EvolutionConfig` (part_001 lines 477-486). -/
structure EvolutionConfig where
  populationSize : ℕ
  generationLimit : ℕ
  mutationRate : ℚ
  crossoverRate : ℚ
  eliteSize : ℕ
  evaluationTimeout : ℕ
  convergenceThreshold : ℚ
  diversityWeight : ℚ
  deriving DecidableEq

/-- An agent reference (JS object identity). -/
abbrev AgentRef := ℕ

/-- The loop-observable behaviour and internal state of one agent object.
`oakStepFails k` (read with default `false`) says whether the k-th of the 8
Oak-cycle capability calls throws; `learnFails` whether `learn` throws;
`act st` is the action `act` settles with within the evaluation timeout
(`none`: it rejects or times out).  `learned` is the agent's internal record of
experiences successfully consumed via `learn`. -/
structure AgentState where
  oakStepFails : List Bool
  learnFails : Bool
  act : IState → Option IAction
  learned : List IExperience

/-- The JS object graph restricted to agents. -/
abbrev Heap := AgentRef → AgentState

/-- Update one reference of the heap. -/
def updateHeap (h : Heap) (r : AgentRef) (s : AgentState) : Heap :=
  fun x => if x = r then s else h x

/-- One `agent.learn(experience)` call: throws iff `learnFails`; on success the
experience is appended to the agent's internal log. -/
def learnCall (h : Heap) (a : AgentRef) (e : IExperience) : Except Unit Heap :=
  if (h a).learnFails then .error ()
  else .ok (updateHeap h a { h a with learned := (h a).learned ++ [e] })

/-- Sequential `learn` calls over a list of experiences (the `for … of` loops in
`mutateAgent` / `crossoverAgents`); the first throw aborts the sequence. -/
def learnMany (h : Heap) (a : AgentRef) : List IExperience → Except Unit Heap
  | [] => .ok h
  | e :: es =>
    match learnCall h a e with
    | .error u => .error u
    | .ok h' => learnMany h' a es

/-- `Math.floor` of a nonnegative rational, as used to turn a `Math.random()`
draw into an array index or a count (negative draws, which `Math.random` cannot
produce, clamp to 0). -/
def qFloorNat (q : ℚ) : ℕ := (Rat.floor q).toNat

/-- JS `String.prototype.startsWith` on character lists. -/
def charsStartWith : List Char → List Char → Bool
  | _, [] => true
  | [], _ :: _ => false
  | a :: as, b :: bs => a == b && charsStartWith as bs

/-- Substring search on character lists. -/
def charsContain (pat : List Char) : List Char → Bool
  | [] => pat.isEmpty
  | c :: rest => charsStartWith (c :: rest) pat || charsContain pat rest

/-- JS `s.includes(pat)` (used by `assessActionQuality` on `action.type`). -/
def containsStr (s pat : String) : Bool := charsContain pat.toList s.toList

/-- JS object-spread update of a `Record<string, any>` (later key wins). -/
def recordSet (ctx : List (String × ParamVal)) (k : String) (v : ParamVal) :
    List (String × ParamVal) :=
  ctx.filter (fun p => p.1 ≠ k) ++ [(k, v)]

/-- The randomness consumed by the evolutionary-operator stage of one agent's
slot: the two Bernoulli rolls of `applyEvolution`, the index roll of
`selectRandomAgent`, the parent roll of `crossoverAgents`, and the draw streams
of `generateMutationExperiences` / `generateCrossoverExperiences`. -/
structure SlotRand where
  mutRoll : ℚ
  mutR : ℕ → ℚ
  crossRoll : ℚ
  otherRoll : ℚ
  parentRoll : ℚ
  crossR : ℕ → ℚ

/-- The straight-line sequence of the 8 Oak-cycle capability calls in
`executeAgentOakCycle` (lines 613-635): step 1 `learnPoliciesAndValues`,
2 `generateNewFeatures`, 3 `rankFeatures`, 4 `createSubproblems`,
5 `learnSubproblemSolutions`, 6 `learnTransitionModels`, 7 `plan`,
8 `maintainMetadata`.  The loop ignores the intermediate values (each only
feeds the next opaque call), so only which call throws is observable. -/
def runOakSteps (a : AgentState) : Except Unit Unit :=
  if a.oakStepFails.getD 0 false then .error () else -- learnPoliciesAndValues
  if a.oakStepFails.getD 1 false then .error () else -- generateNewFeatures
  if a.oakStepFails.getD 2 false then .error () else -- rankFeatures
  if a.oakStepFails.getD 3 false then .error () else -- createSubproblems
  if a.oakStepFails.getD 4 false then .error () else -- learnSubproblemSolutions
  if a.oakStepFails.getD 5 false then .error () else -- learnTransitionModels
  if a.oakStepFails.getD 6 false then .error () else -- plan
  if a.oakStepFails.getD 7 false then .error () else -- maintainMetadata
  .ok ()

/-- `generateMutationExperiences` (lines 693-743): `floor(rand*5)+1` synthetic
experiences; draw `9*i+1 … 9*i+9` of the stream are the i-th experience's three
state features, action intensity, direction roll, reward value, and three
next-state features, in JS evaluation order (draw 0 is the count roll). -/
def generateMutationExperiences (r : ℕ → ℚ) : List IExperience :=
  (List.range (qFloorNat (r 0 * 5) + 1)).map (fun i =>
    { state :=
        { id := "mutation_state_" ++ toString i
        , features :=
            [("exploration", r (9*i+1)), ("adaptation", r (9*i+2)),
             ("novelty", r (9*i+3))]
        , timestamp := 0
        , context := [("source", .str "mutation"), ("iteration", .num i)] }
    , action :=
        { type := "mutate"
        , parameters :=
            [("intensity", .num (r (9*i+4) * (2/10))),
             ("direction",
              .str (if r (9*i+5) > 1/2 then "increase" else "decrease"))] }
    , reward :=
        { value := (r (9*i+6) - 1/2) * (1/10)
        , source := "mutation"
        , timestamp := 0 }
    , nextState :=
        { id := "mutation_next_state_" ++ toString i
        , features :=
            [("exploration", r (9*i+7)), ("adaptation", r (9*i+8)),
             ("novelty", r (9*i+9))]
        , timestamp := 0
        , context := [("source", .str "mutation"), ("iteration", .num i)] }
    , done := false })

/-- `mutateAgent` (lines 669-688): feed synthetic experiences to the agent's
own `learn`; on any throw the catch returns the agent unchanged.  The returned
reference is always the argument itself. -/
def mutateAgent (h : Heap) (a : AgentRef) (r : ℕ → ℚ) : Heap × AgentRef :=
  match learnMany h a (generateMutationExperiences r) with
  | .ok h' => (h', a)
  | .error _ => (h, a)

/-- `generateCrossoverExperiences` (lines 775-825): `floor(rand*3)+2` synthetic
knowledge-transfer experiences; draws `9*i+1 … 9*i+9` are the i-th experience's
three state features, transfer rate, integration-mode roll, reward value, and
three next-state features, in JS evaluation order (draw 0 is the count roll). -/
def generateCrossoverExperiences (r : ℕ → ℚ) : List IExperience :=
  (List.range (qFloorNat (r 0 * 3) + 2)).map (fun i =>
    { state :=
        { id := "crossover_state_" ++ toString i
        , features :=
            [("knowledge_transfer", r (9*i+1)), ("policy_blend", r (9*i+2)),
             ("hybrid_capability", r (9*i+3))]
        , timestamp := 0
        , context := [("source", .str "crossover"), ("iteration", .num i)] }
    , action :=
        { type := "integrate_knowledge"
        , parameters :=
            [("transfer_rate", .num (r (9*i+4) * (1/2) + 1/4)),
             ("integration_mode",
              .str (if r (9*i+5) > 1/2 then "additive" else "selective"))] }
    , reward :=
        { value := r (9*i+6) * (3/10)
        , source := "crossover"
        , timestamp := 0 }
    , nextState :=
        { id := "crossover_next_state_" ++ toString i
        , features :=
            [("knowledge_transfer", r (9*i+7) * (1/2) + 1/2),
             ("policy_blend", r (9*i+8)),
             ("hybrid_capability", r (9*i+9) * (3/10) + 7/10)]
        , timestamp := 0
        , context := [("source", .str "crossover"), ("iteration", .num i)] }
    , done := false })

/-- `crossoverAgents` (lines 748-770): pick one parent by a coin flip
(`Math.random() > 0.5` selects `parent1`), feed it the synthetic transfer
experiences via `learn`, and return it; any throw (including `parent2` being
`undefined`, whose `learn` access throws) makes the catch return `parent1`. -/
def crossoverAgents (h : Heap) (p1 : AgentRef) (p2 : Option AgentRef)
    (roll : ℚ) (r : ℕ → ℚ) : Heap × AgentRef :=
  match (if roll > 1/2 then some p1 else p2) with
  | none => (h, p1)
  | some sel =>
    match learnMany h sel (generateCrossoverExperiences r) with
    | .ok h' => (h', sel)
    | .error _ => (h, p1)

/-- `selectRandomAgent` (lines 830-833): a uniformly drawn member of the
population other than `exclude`; `none` models the `undefined` JS yields when
the candidate list is empty or the index is out of range. -/
def selectRandomAgent (pop : List AgentRef) (exclude : AgentRef) (roll : ℚ) :
    Option AgentRef :=
  let candidates := pop.filter (fun x => x ≠ exclude)
  candidates.get? (qFloorNat (roll * candidates.length))

/-- `applyEvolution` (lines 649-664): mutation with probability `mutationRate`,
then crossover with probability `crossoverRate` when the (pre-cycle) population
has more than one member; the two rolls are independent. -/
def applyEvolution (cfg : EvolutionConfig) (pop : List AgentRef) (h : Heap)
    (a : AgentRef) (rnd : SlotRand) : Heap × AgentRef :=
  let m := if rnd.mutRoll < cfg.mutationRate then mutateAgent h a rnd.mutR
           else (h, a)
  if rnd.crossRoll < cfg.crossoverRate ∧ 1 < pop.length then
    crossoverAgents m.1 m.2 (selectRandomAgent pop a rnd.otherRoll)
      rnd.parentRoll rnd.crossR
  else m

/-- `executeAgentOakCycle` (lines 611-644): the try block runs the 8 capability
calls and then `applyEvolution`; the catch returns the original agent, so a
throwing agent skips the evolutionary-operator stage entirely. -/
def executeAgentOakCycle (cfg : EvolutionConfig) (pop : List AgentRef)
    (h : Heap) (a : AgentRef) (rnd : SlotRand) : Heap × AgentRef :=
  match runOakSteps (h a) with
  | .ok _ => applyEvolution cfg pop h a rnd
  | .error _ => (h, a)

/-- The agent-by-agent traversal of `executeOakCycle`, threading the heap and
numbering the slots so each draws its own randomness. -/
def oakCycleGo (cfg : EvolutionConfig) (pop : List AgentRef)
    (slotR : ℕ → SlotRand) : ℕ → Heap → List AgentRef → Heap × List AgentRef
  | _, h, [] => (h, [])
  | i, h, a :: rest =>
    let p := executeAgentOakCycle cfg pop h a (slotR i)
    let q := oakCycleGo cfg pop slotR (i+1) p.1 rest
    (q.1, p.2 :: q.2)

/-- `executeOakCycle` (lines 587-606): one full Oak cycle over the population.
The source processes batches of `min(10, |population|)` with `Promise.all`
inside a batch; batch results are concatenated in order and each slot touches
only its own draws and per-agent state (the failure flags consulted by control
flow are never written), so the result is the in-order traversal. -/
def executeOakCycle (cfg : EvolutionConfig) (h : Heap) (pop : List AgentRef)
    (slotR : ℕ → SlotRand) : Heap × List AgentRef :=
  oakCycleGo cfg pop slotR 0 h pop

/-- The randomness and clock inputs consumed by one `evaluateAgent` call:
the draws of `generateRandomState`, the `Date.now()` tick, a draw stream per
`simulateEnvironmentStep` call (indexed by step), and the two bonus draws. -/
structure EvalRand where
  initR : ℕ → ℚ
  now : ℕ
  envR : ℕ → ℕ → ℚ
  bonusC : ℚ
  bonusD : ℚ

/-- `generateRandomState` (lines 901-917): five named features drawn in [0,1]
(`noise_level` scaled to [0,0.3]); draw 0 feeds the random id suffix and draw 6
the context difficulty. -/
def generateRandomState (r : ℕ → ℚ) (now : ℕ) : IState :=
  { id := "eval_state_" ++ toString now ++ "_" ++ toString (r 0)
  , features :=
      [("challenge_level", r 1), ("complexity", r 2),
       ("noise_level", r 3 * (3/10)), ("resource_availability", r 4),
       ("time_pressure", r 5)]
  , timestamp := now
  , context := [("environment", .str "evaluation"), ("difficulty", .num (r 6))] }

/-- `assessActionQuality` (lines 967-990).  `state.features.get('complexity')
|| 0.5` falls back to 0.5 both when the key is absent and when the stored value
is 0 (JS falsiness); action complexity is 0.1 per parameter key. -/
def assessActionQuality (st : IState) (action : IAction) : ℚ :=
  let stateComplexity :=
    match st.features.lookup "complexity" with
    | some v => if v = 0 then 1/2 else v
    | none => 1/2
  let actionComplexity : ℚ := action.parameters.length * (1/10)
  let q1 : ℚ := if stateComplexity > 7/10 ∧ actionComplexity > 3/10
                then 1/2 + 3/10 else 1/2
  let q2 := if stateComplexity < 3/10 ∧ actionComplexity > 1/2
            then q1 - 2/10 else q1
  let q3 := if containsStr action.type "adapt" || containsStr action.type "learn"
            then q2 + 2/10 else q2
  max (1/10) (min 1 q3)

/-- Feature read `state.features.get(k)!` inside `simulateEnvironmentStep`; the
non-null assertion is sound there because every state reaching it carries all
five evaluation features. -/
def featureGet (st : IState) (k : String) : ℚ := (st.features.lookup k).getD 0

/-- `simulateEnvironmentStep` (lines 922-962): reward `(2*rand-1) *
actionQuality`, and each feature perturbed by a small signed delta with the
source's clamps; draw 0 is the base reward, draws 1-5 the five perturbations in
JS order.  Wall-clock timestamps are not modelled (never read by the loop). -/
def simulateEnvironmentStep (st : IState) (action : IAction) (r : ℕ → ℚ) :
    IState × IReward :=
  let baseReward := r 0 * 2 - 1
  let actionQuality := assessActionQuality st action
  let environmentReward := baseReward * actionQuality
  ( { id := "next_" ++ st.id
    , features :=
        [("challenge_level",
          max 0 (featureGet st "challenge_level" + (r 1 - 1/2) * (2/10))),
         ("complexity",
          max 0 (featureGet st "complexity" + (r 2 - 1/2) * (1/10))),
         ("noise_level",
          max 0 (min 1 (featureGet st "noise_level" + (r 3 - 1/2) * (1/10)))),
         ("resource_availability",
          max 0 (min 1 (featureGet st "resource_availability"
                        + (r 4 - 1/2) * (15/100)))),
         ("time_pressure",
          max 0 (min 1 (featureGet st "time_pressure" + (r 5 - 1/2) * (1/10))))]
    , timestamp := st.timestamp
    , context := recordSet st.context "previous_action" (.str action.type) }
  , { value := environmentReward
    , source := "environment"
    , timestamp := st.timestamp
    , metadata := some [("action_quality", actionQuality),
                        ("base_reward", baseReward)] } )

/-- The `for (step …)` loop of `evaluateAgent`: `step` is the current index,
`n` the steps still to run (the loop runs `evaluationSteps = 10` steps).  An
`act` that rejects or outruns the `Promise.race` timeout, or a throwing
`learn`, aborts with the heap as mutated so far (earlier `learn`s persist). -/
def evalSteps (a : AgentRef) (er : EvalRand) :
    ℕ → ℕ → Heap → IState → ℚ → Heap × Except Unit ℚ
  | _, 0, h, _, total => (h, .ok total)
  | step, n+1, h, st, total =>
    match (h a).act st with
    | none => (h, .error ())
    | some action =>
      let sr := simulateEnvironmentStep st action (er.envR step)
      let total' := total + sr.2.value
      let exp : IExperience :=
        { state := st, action := action, reward := sr.2,
          nextState := sr.1, done := n == 0 }
      match learnCall h a exp with
      | .error _ => (h, .error ())
      | .ok h' => evalSteps a er (step+1) n h' sr.1 total'

/-- `evaluateAgent` (lines 852-896): ten simulated steps; fitness is the mean
reward plus the two random bonuses (`rand*0.1` and `rand*0.05*diversityWeight`);
the catch turns any failure (act timeout/rejection, throwing learn) into the
penalty fitness `-1`, never rethrowing. -/
def evaluateAgent (cfg : EvolutionConfig) (h : Heap) (a : AgentRef)
    (er : EvalRand) : Heap × ℚ :=
  let st0 := generateRandomState er.initR er.now
  match evalSteps a er 0 10 h st0 0 with
  | (h', .error _) => (h', -1)
  | (h', .ok total) =>
    (h', total / 10 + er.bonusC * (1/10)
         + er.bonusD * (5/100) * cfg.diversityWeight)

/-- The agent-by-agent traversal of `evaluatePopulation`, threading the heap
(each evaluation touches only its own agent, so the `Promise.all` schedule is
observationally the in-order traversal; results keep population order). -/
def evalPopGo (cfg : EvolutionConfig) (evalR : ℕ → EvalRand) :
    ℕ → Heap → List AgentRef → Heap × List ℚ
  | _, h, [] => (h, [])
  | i, h, a :: rest =>
    let p := evaluateAgent cfg h a (evalR i)
    let q := evalPopGo cfg evalR (i+1) p.1 rest
    (q.1, p.2 :: q.2)

/-- `evaluatePopulation` (lines 838-847): every agent of the new generation is
scored; failures are scored `-1`, never propagated. -/
def evaluatePopulation (cfg : EvolutionConfig) (h : Heap)
    (pop : List AgentRef) (evalR : ℕ → EvalRand) : Heap × List ℚ :=
  evalPopGo cfg evalR 0 h pop

/-- `EvolutionMetrics` (lines 488-495).  `bestFitness` is `Math.max(...scores)`
and hence `-Infinity` (`⊥`) for an empty score array. -/
structure EvolutionMetrics where
  generation : ℕ
  bestFitness : WithBot ℚ
  averageFitness : ℚ
  diversity : ℚ
  convergenceRate : ℚ
  runtime : ℕ
  deriving DecidableEq

/-- Default metrics record standing for the `undefined` of an out-of-range JS
array read (only ever produced by such reads, never stored). -/
def mZero : EvolutionMetrics :=
  { generation := 0, bestFitness := ⊥, averageFitness := 0, diversity := 0,
    convergenceRate := 0, runtime := 0 }

/-- `Math.max(...scores)`: `-Infinity` on the empty array. -/
def listMax : List ℚ → WithBot ℚ
  | [] => ⊥
  | s :: rest => ((rest.foldl max s : ℚ) : WithBot ℚ)

/-- The `bestAgent` / `bestFitness` running state of the loop (lines 501-502):
`bestAgent` starts `null`, `bestFitness` starts `-Infinity`. -/
structure BestState where
  bestAgent : Option AgentRef := none
  bestFitness : WithBot ℚ := ⊥
  deriving DecidableEq

/-- `updateBestAgent` (lines 1013-1028): replace the tracked pair exactly when
the generation's maximum fitness strictly exceeds the best seen so far; the new
best agent is the one at the first index attaining the maximum
(`fitnessScores.indexOf(maxFitness)`). -/
def updateBestAgent (st : BestState) (pop : List AgentRef)
    (scores : List ℚ) : BestState :=
  match scores with
  | [] => st
  | s :: rest =>
    let maxFitness := rest.foldl max s
    if st.bestFitness < (maxFitness : WithBot ℚ) then
      { bestAgent := pop.get? ((s :: rest).indexOf maxFitness)
      , bestFitness := (maxFitness : WithBot ℚ) }
    else st

/-- `calculatePopulationDiversity` (lines 1052-1056): standard deviation of the
scores; `sq` is the environment's `Math.sqrt` approximation (the loop never
branches on the result). -/
def calculatePopulationDiversity (sq : ℚ → ℚ) (scores : List ℚ) : ℚ :=
  let mean := scores.sum / scores.length
  sq ((scores.map (fun s => (s - mean) ^ 2)).sum / scores.length)

/-- Absolute difference of two recorded best-fitness values.  Both are finite
whenever the generations were evaluated over nonempty populations; the `⊥`
(`-Infinity`) case, where JS would produce `NaN`, is mapped to 0 and is
unreachable in every run the claims quantify over. -/
def absDiffWB : WithBot ℚ → WithBot ℚ → ℚ
  | some a, some b => |a - b|
  | _, _ => 0

/-- `calculateConvergenceRate` (lines 1061-1068): reads
`this.metrics[length-1]` and `this.metrics[length-2]` — the metrics list as it
stands BEFORE the current generation's record is pushed. -/
def calculateConvergenceRate (ms : List EvolutionMetrics) : ℚ :=
  if ms.length < 2 then 0
  else absDiffWB (ms.getD (ms.length - 1) mZero).bestFitness
                 (ms.getD (ms.length - 2) mZero).bestFitness

/-- `calculateMetrics` (lines 1033-1047), called with the metrics accumulated
so far (`priorMetrics`), the current generation index, scores and runtime.
The average of an empty score array (JS `NaN`) is modelled as 0. -/
def calculateMetrics (gen : ℕ) (priorMetrics : List EvolutionMetrics)
    (sq : ℚ → ℚ) (scores : List ℚ) (runtime : ℕ) : EvolutionMetrics :=
  { generation := gen
  , bestFitness := listMax scores
  , averageFitness := scores.sum / scores.length
  , diversity := calculatePopulationDiversity sq scores
  , convergenceRate := calculateConvergenceRate priorMetrics
  , runtime := runtime }

/-- `hasConverged` (lines 1073-1081): once at least 5 generations of metrics
exist, stop when the mean recorded convergence rate over the last 5 falls
below the threshold. -/
def hasConverged (cfg : EvolutionConfig) (ms : List EvolutionMetrics) : Bool :=
  if ms.length < 5 then false
  else
    let recent := ms.drop (ms.length - 5)
    decide ((recent.map (·.convergenceRate)).sum / 5 < cfg.convergenceThreshold)

/-- The descending-fitness index permutation of `selectNextGeneration` (lines
1090-1093): pair each score with its index, stable-sort by descending fitness
(JS `Array.prototype.sort` is stable; `mergeSort` models it), keep the indices.
The JS pair object `{fitness, index}` is the `enum` pair `(index, fitness)`. -/
def sortedFitnessIndices (scores : List ℚ) : List ℕ :=
  ((scores.enum).mergeSort (fun a b => b.2 ≤ a.2)).map (·.1)

/-- The elitism phase of `selectNextGeneration` (lines 1095-1098): copy the
agents at the top `min(eliteSize, |sortedIndices|)` sorted indices verbatim.
The `getD … 0` default stands for the `undefined` a JS out-of-range read would
give; indices are in range whenever `|scores| = |population|`. -/
def eliteSelection (cfg : EvolutionConfig) (pop : List AgentRef)
    (scores : List ℚ) : List AgentRef :=
  let sortedIndices := sortedFitnessIndices scores
  (sortedIndices.take (min cfg.eliteSize sortedIndices.length)).map
    (fun i => pop.getD i 0)

/-- `tournamentSelection` (lines 1112-1128): `max(2, floor(0.1*|pop|))` entries
drawn uniformly with replacement; the entry list is sorted by descending
fitness and the head taken.  Out-of-range draws (impossible for `Math.random`
outputs in [0,1)) read the `getD` defaults. -/
def tournamentSelection (pop : List AgentRef) (scores : List ℚ)
    (r : ℕ → ℚ) : AgentRef :=
  let tournamentSize := max 2 (pop.length / 10)
  let tournament := (List.range tournamentSize).map (fun i =>
    let idx := qFloorNat (r i * pop.length)
    (pop.getD idx 0, scores.getD idx 0))
  ((tournament.mergeSort (fun a b => b.2 ≤ a.2)).headD (0, 0)).1

/-- `selectNextGeneration` (lines 1086-1107): elites, then tournament winners
until the next generation reaches `populationSize` (the `while` loop adds one
agent per iteration, hence `populationSize - |elite|` iterations, none when the
elites already fill it). -/
def selectNextGeneration (cfg : EvolutionConfig) (pop : List AgentRef)
    (scores : List ℚ) (fillR : ℕ → ℕ → ℚ) : List AgentRef :=
  let elite := eliteSelection cfg pop scores
  elite ++ (List.range (cfg.populationSize - elite.length)).map
    (fun it => tournamentSelection pop scores (fillR it))

/-- The oracle inputs of one generation: per-slot operator randomness, per-agent
evaluation randomness, per-tournament fill randomness, and the generation's
wall-clock runtime. -/
structure GenOracle where
  slotR : ℕ → SlotRand
  evalR : ℕ → EvalRand
  fillR : ℕ → ℕ → ℚ
  runtime : ℕ

/-- The mutable state of `run` while looping. -/
structure LoopState where
  heap : Heap
  population : List AgentRef
  generation : ℕ
  best : BestState
  metrics : List EvolutionMetrics
  trace : List (List AgentRef × List ℚ)

/-- What `run` externally delivers: the returned `this.bestAgent!` (kept as an
`Option`, since the non-null assertion can in fact deliver `null`), the final
tracked fitness, the metrics log, the final generation counter, and — standing
for the stream of `generationComplete` observations — the evaluated population
and score list of every executed generation. -/
structure RunResult where
  bestAgent : Option AgentRef
  bestFitness : WithBot ℚ
  metrics : List EvolutionMetrics
  generations : ℕ
  trace : List (List AgentRef × List ℚ)

/-- Exiting the `while` loop of `run`: package the tracked state. -/
def finishRun (st : LoopState) : RunResult :=
  { bestAgent := st.best.bestAgent, bestFitness := st.best.bestFitness,
    metrics := st.metrics, generations := st.generation, trace := st.trace }

/-- One iteration of the `while` body of `run` (lines 535-564): Oak cycle,
evaluation, best-agent update, metrics push, convergence check (`true` result:
`break`), then selection and generation increment. -/
def genBody (cfg : EvolutionConfig) (sq : ℚ → ℚ) (o : GenOracle)
    (st : LoopState) : LoopState × Bool :=
  let c := executeOakCycle cfg st.heap st.population o.slotR
  let ev := evaluatePopulation cfg c.1 c.2 o.evalR
  let best' := updateBestAgent st.best c.2 ev.2
  let gm := calculateMetrics st.generation st.metrics sq ev.2 o.runtime
  let metrics' := st.metrics ++ [gm]
  let st' : LoopState :=
    { heap := ev.1, population := st.population, generation := st.generation,
      best := best', metrics := metrics', trace := st.trace ++ [(c.2, ev.2)] }
  if hasConverged cfg metrics' then (st', true)
  else
    ({ st' with population := selectNextGeneration cfg c.2 ev.2 o.fillR,
                generation := st.generation + 1 }, false)

/-- The `while (this.isRunning && generation < generationLimit)` loop.
`stopBefore g` is whether `stop()` (lines 1133-1136) has been called by the
time the check for generation `g` runs; a stop request only takes effect at
this check, so the generation in flight always completes.  The fuel argument
only bounds recursion: `run` passes `generationLimit`, which the guard makes
sufficient. -/
def runAux (cfg : EvolutionConfig) (sq : ℚ → ℚ) (oracle : ℕ → GenOracle)
    (stopBefore : ℕ → Bool) : ℕ → LoopState → RunResult
  | 0, st => finishRun st
  | fuel+1, st =>
    if stopBefore st.generation = false ∧ st.generation < cfg.generationLimit
    then
      match genBody cfg sq (oracle st.generation) st with
      | (st', true) => finishRun st'
      | (st', false) => runAux cfg sq oracle stopBefore fuel st'
    else finishRun st

/-- `run` (lines 526-581) over an initial population of agent references. -/
def run (cfg : EvolutionConfig) (sq : ℚ → ℚ) (h : Heap)
    (pop : List AgentRef) (oracle : ℕ → GenOracle) (stopBefore : ℕ → Bool) :
    RunResult :=
  runAux cfg sq oracle stopBefore cfg.generationLimit
    { heap := h, population := pop, generation := 0, best := {},
      metrics := [], trace := [] }

/- == Concrete fixtures (used by witnesses and counterexamples) == -/

/-- The all-zero `Math.random` draw stream. -/
def zeroStream : ℕ → ℚ := fun _ => 0

/-- A well-behaved agent: no capability call throws, `act` answers a bare
"noop" action. -/
def agentOk : AgentState :=
  { oakStepFails := [], learnFails := false,
    act := fun _ => some { type := "noop", parameters := [] }, learned := [] }

/-- An agent every one of whose capability calls throws (the scenario agent of
the spec): all 8 Oak-cycle calls, `learn`, and `act` (which never settles). -/
def agentAllThrow : AgentState :=
  { oakStepFails := List.replicate 8 true, learnFails := true,
    act := fun _ => none, learned := [] }

/-- An agent whose 8 Oak-cycle calls all throw but whose `learn` works. -/
def agentStepsThrow : AgentState :=
  { oakStepFails := List.replicate 8 true, learnFails := false,
    act := fun _ => none, learned := [] }

/-- Heap of well-behaved agents. -/
def heapOk : Heap := fun _ => agentOk

/-- Heap where reference 0 is the all-throwing agent. -/
def heapAllThrow0 : Heap := fun r => if r = 0 then agentAllThrow else agentOk

/-- Heap of agents whose Oak-cycle calls throw but whose `learn` works. -/
def heapStepsThrow : Heap := fun _ => agentStepsThrow

/-- All-zero slot randomness. -/
def slotZero : SlotRand :=
  { mutRoll := 0, mutR := zeroStream, crossRoll := 0, otherRoll := 0,
    parentRoll := 0, crossR := zeroStream }

/-- All-zero evaluation randomness. -/
def evalZero : EvalRand :=
  { initR := zeroStream, now := 0, envR := fun _ _ => 0, bonusC := 0,
    bonusD := 0 }

/-- All-zero generation oracle. -/
def oracleZero : ℕ → GenOracle := fun _ =>
  { slotR := fun _ => slotZero, evalR := fun _ => evalZero,
    fillR := fun _ _ => 0, runtime := 0 }

/-- A minimal configuration: population 1, one generation, operators off. -/
def cfgUnit : EvolutionConfig :=
  { populationSize := 1, generationLimit := 1, mutationRate := 0,
    crossoverRate := 0, eliteSize := 1, evaluationTimeout := 1,
    convergenceThreshold := 0, diversityWeight := 0 }

/-- `cfgUnit` with a generation limit of 0. -/
def cfgZero : EvolutionConfig := { cfgUnit with generationLimit := 0 }

/-- `cfgUnit` with mutation certain (`mutationRate` 1). -/
def cfgMutOn : EvolutionConfig := { cfgUnit with mutationRate := 1 }

/-- `cfgUnit` over two generations. -/
def cfgTwoGen : EvolutionConfig := { cfgUnit with generationLimit := 2 }

/-- Oracle whose generation-1 evaluation draws give base reward 0 while
generation 0 gives base reward -1: the two generations get different best
fitness (0 versus -1/2 for `agentOk`). -/
def oracleC3 : ℕ → GenOracle := fun g =>
  { slotR := fun _ => slotZero,
    evalR := fun _ =>
      { initR := zeroStream, now := 0,
        envR := fun _ d => if g = 1 ∧ d = 0 then 1/2 else 0,
        bonusC := 0, bonusD := 0 },
    fillR := fun _ _ => 0, runtime := 0 }

/-- `stop()` never called. -/
def neverStop : ℕ → Bool := fun _ => false

/- == Helper lemmas == -/

theorem le_foldl_max_init (l : List ℚ) : ∀ s : ℚ, s ≤ l.foldl max s := by
  induction l with
  | nil => intro s; simp
  | cons a t ih =>
    intro s
    exact le_trans (le_max_left s a) (ih (max s a))

theorem mem_le_foldl_max (l : List ℚ) :
    ∀ (s x : ℚ), x ∈ l → x ≤ l.foldl max s := by
  induction l with
  | nil => intro s x hx; cases hx
  | cons a t ih =>
    intro s x hx
    rcases List.mem_cons.mp hx with h | h
    · subst h; exact le_trans (le_max_right s x) (le_foldl_max_init t _)
    · exact ih _ x h

theorem updateBestAgent_mono (st : BestState) (pop : List AgentRef)
    (scores : List ℚ) :
    st.bestFitness ≤ (updateBestAgent st pop scores).bestFitness := by
  cases scores with
  | nil => exact le_refl _
  | cons s rest =>
    unfold updateBestAgent
    dsimp only
    split
    · next hlt => exact le_of_lt hlt
    · exact le_refl _

theorem updateBestAgent_ge_scores (st : BestState) (pop : List AgentRef)
    (scores : List ℚ) :
    ∀ x ∈ scores,
      (x : WithBot ℚ) ≤ (updateBestAgent st pop scores).bestFitness := by
  cases scores with
  | nil => intro x hx; cases hx
  | cons s rest =>
    intro x hx
    have hle : x ≤ rest.foldl max s := by
      rcases List.mem_cons.mp hx with h | h
      · subst h; exact le_foldl_max_init rest x
      · exact mem_le_foldl_max rest s x h
    unfold updateBestAgent
    dsimp only
    split
    · next _ => exact WithBot.coe_le_coe.mpr hle
    · next hnot =>
      exact le_trans (WithBot.coe_le_coe.mpr hle) (not_lt.mp hnot)

theorem updateBestAgent_of_not_gt (st : BestState) (pop : List AgentRef)
    (scores : List ℚ) (hng : ¬ st.bestFitness < listMax scores) :
    updateBestAgent st pop scores = st := by
  cases scores with
  | nil => rfl
  | cons s rest =>
    unfold updateBestAgent
    dsimp only
    rw [if_neg]
    exact fun hc => hng (by simpa [listMax] using hc)

theorem updateBestAgent_of_gt (st : BestState) (pop : List AgentRef)
    (scores : List ℚ) (hg : st.bestFitness < listMax scores) :
    (updateBestAgent st pop scores).bestFitness = listMax scores := by
  cases scores with
  | nil => simp [listMax] at hg
  | cons s rest =>
    unfold updateBestAgent
    dsimp only
    rw [if_pos (by simpa [listMax] using hg)]
    simp [listMax]

/- == C9 == -/

/-- C9: with `generationLimit = 0` the generation loop body never executes, the
tracked best agent remains its initial `null`, and `run`'s trailing non-null
assertion `this.bestAgent!` therefore delivers `null` despite the declared
non-null `IMetaAgent` return type (the assertion is unsound at this input). -/
theorem run_generationLimit_zero_returns_none (cfg : EvolutionConfig)
    (sq : ℚ → ℚ) (h : Heap) (pop : List AgentRef) (oracle : ℕ → GenOracle)
    (stopBefore : ℕ → Bool) (hz : cfg.generationLimit = 0) :
    (run cfg sq h pop oracle stopBefore).bestAgent = none := by
  unfold run
  rw [hz]
  rfl

/-- Witness for C9 at a concrete zero-limit configuration. -/
theorem run_generationLimit_zero_returns_none_witness :
    cfgZero.generationLimit = 0 ∧
    (run cfgZero id heapOk [0] oracleZero neverStop).bestAgent = none :=
  ⟨rfl, run_generationLimit_zero_returns_none cfgZero id heapOk [0]
    oracleZero neverStop rfl⟩

/- == C2 == -/

/-- C2 counterexample: an agent whose Oak-cycle capability calls throw, inside
a configuration whose mutation rate is 1 (so the claimed pass-through to the
evolutionary-operator stage would mutate it with certainty: the same heap,
agent and randomness fed to `mutateAgent` append a synthetic experience to its
internal log).  Yet `executeAgentOakCycle` leaves the agent's log empty and the
heap untouched: the catch returns the agent directly and the operator stage is
skipped, refuting the claim that mutation and crossover are still applied. -/
theorem oakCycle_failure_skips_operators_counterexample :
    runOakSteps (heapStepsThrow 0) = Except.error () ∧
    slotZero.mutRoll < cfgMutOn.mutationRate ∧
    (((executeAgentOakCycle cfgMutOn [0] heapStepsThrow 0 slotZero).1 0).learned
      = [] ∧
     (executeAgentOakCycle cfgMutOn [0] heapStepsThrow 0 slotZero).2 = 0) ∧
    ((mutateAgent heapStepsThrow 0 slotZero.mutR).1 0).learned.length = 1 := by
  refine ⟨rfl, by with_unfolding_all decide, ⟨rfl, rfl⟩,
    by with_unfolding_all decide⟩

/-- C2 amended: whenever one of the 8 Oak-cycle capability calls for an agent
throws, the exception is caught per-agent and the agent is returned unchanged
as that slot's result, skipping the evolutionary-operator stage — mutation and
crossover are not applied to it in that generation (they are applied, with
their configured independent probabilities, only when all 8 calls succeed). -/
theorem oakCycle_failure_returns_agent_unchanged (cfg : EvolutionConfig)
    (pop : List AgentRef) (h : Heap) (a : AgentRef) (rnd : SlotRand)
    (herr : runOakSteps (h a) = Except.error ()) :
    executeAgentOakCycle cfg pop h a rnd = (h, a) ∧
    (runOakSteps (h a) = Except.ok () →
      executeAgentOakCycle cfg pop h a rnd = applyEvolution cfg pop h a rnd) := by
  constructor
  · unfold executeAgentOakCycle
    rw [herr]
  · intro hok
    rw [herr] at hok
    cases hok

/-- Witness for the amended C2 at the all-throwing agent. -/
theorem oakCycle_failure_returns_agent_unchanged_witness :
    runOakSteps (heapStepsThrow 0) = Except.error () ∧
    executeAgentOakCycle cfgUnit [0, 1] heapStepsThrow 0 slotZero
      = (heapStepsThrow, 0) :=
  ⟨rfl, (oakCycle_failure_returns_agent_unchanged cfgUnit [0, 1] heapStepsThrow
    0 slotZero rfl).1⟩

/- == C6 == -/

theorem evalSteps_fail (a : AgentRef) (er : EvalRand) (step n : ℕ) (h : Heap)
    (st : IState) (total : ℚ)
    (hf : (h a).act st = none ∨ (h a).learnFails = true) :
    (evalSteps a er step (n+1) h st total).2 = Except.error () := by
  rcases hf with hf | hf
  · simp only [evalSteps, hf]
  · simp only [evalSteps]
    cases hact : (h a).act st with
    | none => simp
    | some action => simp [learnCall, hf]

theorem evalPopGo_length (cfg : EvolutionConfig) (evalR : ℕ → EvalRand)
    (l : List AgentRef) :
    ∀ (i : ℕ) (h : Heap), ((evalPopGo cfg evalR i h l).2).length = l.length := by
  induction l with
  | nil => intro i h; rfl
  | cons a rest ih => intro i h; simp [evalPopGo, ih]

/-- C6: an agent whose `act` never settles within `evaluationTimeout` (modelled
as `act` returning `none` at every state; the `Promise.race` then rejects), or
whose evaluation raises an uncaught error (a throwing `learn`), is caught
inside `evaluateAgent` and scored `-1` for the generation; and the failure is
never propagated to the outer run loop — `evaluatePopulation` delivers a score
for every agent unconditionally. -/
theorem evaluateAgent_failure_scores_neg_one (cfg : EvolutionConfig)
    (h : Heap) (a : AgentRef) (er : EvalRand)
    (hf : (∀ s, (h a).act s = none) ∨ (h a).learnFails = true) :
    (evaluateAgent cfg h a er).2 = -1 ∧
    (∀ (h2 : Heap) (pop : List AgentRef) (evalR : ℕ → EvalRand),
      ((evaluatePopulation cfg h2 pop evalR).2).length = pop.length) := by
  constructor
  · have hf' : (h a).act (generateRandomState er.initR er.now) = none ∨
        (h a).learnFails = true := by
      rcases hf with hf | hf
      · exact Or.inl (hf _)
      · exact Or.inr hf
    have herr := evalSteps_fail a er 0 9 h
      (generateRandomState er.initR er.now) 0 hf'
    unfold evaluateAgent
    dsimp only
    rcases hres : evalSteps a er 0 (9+1) h
        (generateRandomState er.initR er.now) 0 with ⟨h', r⟩
    rw [hres] at herr
    dsimp only at herr
    subst herr
    rfl
  · intro h2 pop evalR
    exact evalPopGo_length cfg evalR pop 0 h2

/-- Witness for C6 at an agent whose every capability call throws. -/
theorem evaluateAgent_failure_scores_neg_one_witness :
    (heapAllThrow0 0).learnFails = true ∧
    (evaluateAgent cfgUnit heapAllThrow0 0 evalZero).2 = -1 :=
  ⟨rfl, (evaluateAgent_failure_scores_neg_one cfgUnit heapAllThrow0 0 evalZero
    (Or.inr rfl)).1⟩

/- == C4 == -/

/-- C4: under the configuration invariant `eliteSize ≤ populationSize`, the
population array produced by next-generation selection has length exactly
`populationSize` — the `while` loop fills every slot the elites do not occupy
(this holds for any evaluated population, in particular for every generation
after the first). -/
theorem selectNextGeneration_length (cfg : EvolutionConfig)
    (pop : List AgentRef) (scores : List ℚ) (fillR : ℕ → ℕ → ℚ)
    (hle : cfg.eliteSize ≤ cfg.populationSize) :
    (selectNextGeneration cfg pop scores fillR).length = cfg.populationSize := by
  have hel : (eliteSelection cfg pop scores).length ≤ cfg.populationSize := by
    unfold eliteSelection
    rw [List.length_map, List.length_take]
    exact le_trans (le_trans (min_le_left _ _) (min_le_left _ _)) hle
  unfold selectNextGeneration
  rw [List.length_append, List.length_map, List.length_range]
  omega

/-- Witness for C4 at the minimal configuration. -/
theorem selectNextGeneration_length_witness :
    cfgUnit.eliteSize ≤ cfgUnit.populationSize ∧
    (selectNextGeneration cfgUnit [0] [0] (fun _ _ => 0)).length
      = cfgUnit.populationSize :=
  ⟨by decide, selectNextGeneration_length cfgUnit [0] [0] (fun _ _ => 0)
    (by decide)⟩

/- == C10 == -/

theorem mutateAgent_ref (h : Heap) (a : AgentRef) (r : ℕ → ℚ) :
    (mutateAgent h a r).2 = a := by
  unfold mutateAgent
  cases learnMany h a (generateMutationExperiences r) <;> rfl

theorem crossoverAgents_ref (h : Heap) (p1 : AgentRef) (p2 : Option AgentRef)
    (roll : ℚ) (r : ℕ → ℚ) :
    (crossoverAgents h p1 p2 roll r).2 = p1 ∨
      p2 = some ((crossoverAgents h p1 p2 roll r).2) := by
  unfold crossoverAgents
  split
  · left; rfl
  next sel hsel =>
    have hsel' : sel = p1 ∨ p2 = some sel := by
      by_cases hroll : roll > 1/2
      · rw [if_pos hroll] at hsel
        exact Or.inl (Option.some_injective _ hsel.symm)
      · rw [if_neg hroll] at hsel
        exact Or.inr hsel
    split
    · rcases hsel' with hp | hp
      · left; exact hp
      · right; exact hp
    · left; rfl

theorem selectRandomAgent_mem (pop : List AgentRef) (x : AgentRef) (roll : ℚ)
    (b : AgentRef) (hb : selectRandomAgent pop x roll = some b) : b ∈ pop := by
  unfold selectRandomAgent at hb
  exact (List.mem_filter.mp (List.get?_mem hb)).1

theorem applyEvolution_mem (cfg : EvolutionConfig) (pop : List AgentRef)
    (h : Heap) (a : AgentRef) (rnd : SlotRand) (ha : a ∈ pop) :
    (applyEvolution cfg pop h a rnd).2 ∈ pop := by
  unfold applyEvolution
  dsimp only
  have hm2 : (if rnd.mutRoll < cfg.mutationRate then mutateAgent h a rnd.mutR
      else (h, a)).2 = a := by
    split
    · exact mutateAgent_ref h a rnd.mutR
    · rfl
  split
  · rcases crossoverAgents_ref _ _ (selectRandomAgent pop a rnd.otherRoll)
        rnd.parentRoll rnd.crossR with hc | hc
    · rw [hc, hm2]; exact ha
    · exact selectRandomAgent_mem pop a rnd.otherRoll _ hc
  · rw [hm2]; exact ha

theorem executeAgentOakCycle_mem (cfg : EvolutionConfig) (pop : List AgentRef)
    (h : Heap) (a : AgentRef) (rnd : SlotRand) (ha : a ∈ pop) :
    (executeAgentOakCycle cfg pop h a rnd).2 ∈ pop := by
  unfold executeAgentOakCycle
  cases runOakSteps (h a) with
  | ok u => exact applyEvolution_mem cfg pop h a rnd ha
  | error u => exact ha

theorem oakCycleGo_mem (cfg : EvolutionConfig) (pop : List AgentRef)
    (slotR : ℕ → SlotRand) (l : List AgentRef) :
    ∀ (i : ℕ) (h : Heap), (∀ x ∈ l, x ∈ pop) →
      ∀ b ∈ (oakCycleGo cfg pop slotR i h l).2, b ∈ pop := by
  induction l with
  | nil => intro i h _ b hb; cases hb
  | cons a rest ih =>
    intro i h hsub b hb
    simp only [oakCycleGo] at hb
    rcases List.mem_cons.mp hb with hb | hb
    · subst hb
      exact executeAgentOakCycle_mem cfg pop h a (slotR i)
        (hsub a (List.mem_cons_self a rest))
    · exact ih (i+1) _ (fun x hx => hsub x (List.mem_cons_of_mem _ hx)) b hb

/-- C10: every reference in the population delivered by one Oak cycle already
occurs in the pre-cycle population — no agent object is ever allocated by the
cycle: `mutateAgent` returns exactly the reference it was given, and
`crossoverAgents` returns one of its two parent references (so a slot may at
most come to hold a different, already-existing population member). -/
theorem oakCycle_preserves_references (cfg : EvolutionConfig) (h : Heap)
    (pop : List AgentRef) (slotR : ℕ → SlotRand) :
    (∀ b ∈ (executeOakCycle cfg h pop slotR).2, b ∈ pop) ∧
    (∀ (h2 : Heap) (a : AgentRef) (r : ℕ → ℚ), (mutateAgent h2 a r).2 = a) ∧
    (∀ (h2 : Heap) (p1 : AgentRef) (p2 : Option AgentRef) (roll : ℚ)
        (r : ℕ → ℚ), (crossoverAgents h2 p1 p2 roll r).2 = p1 ∨
          p2 = some ((crossoverAgents h2 p1 p2 roll r).2)) :=
  ⟨oakCycleGo_mem cfg pop slotR pop 0 h (fun _ hx => hx),
   mutateAgent_ref, crossoverAgents_ref⟩

/- == C7 == -/

theorem learnCall_preserve (h : Heap) (a : AgentRef) (e : IExperience)
    (h' : Heap) (hok : learnCall h a e = .ok h') :
    ∀ x, x ≠ a → h' x = h x := by
  unfold learnCall at hok
  split at hok
  · cases hok
  · intro x hx
    cases hok
    unfold updateHeap
    rw [if_neg hx]

theorem learnMany_preserve (es : List IExperience) :
    ∀ (h : Heap) (a : AgentRef) (h' : Heap), learnMany h a es = .ok h' →
      ∀ x, x ≠ a → h' x = h x := by
  induction es with
  | nil =>
    intro h a h' hok x _
    cases hok
    rfl
  | cons e rest ih =>
    intro h a h' hok x hx
    unfold learnMany at hok
    cases hcall : learnCall h a e with
    | error u => rw [hcall] at hok; cases hok
    | ok h1 =>
      rw [hcall] at hok
      rw [ih h1 a h' hok x hx, learnCall_preserve h a e h1 hcall x hx]

theorem learnMany_fails (h : Heap) (a : AgentRef) (e : IExperience)
    (es : List IExperience) (hl : (h a).learnFails = true) :
    learnMany h a (e :: es) = .error () := by
  simp [learnMany, learnCall, hl]

theorem generateCrossoverExperiences_ne_nil (r : ℕ → ℚ) :
    generateCrossoverExperiences r ≠ [] := by
  unfold generateCrossoverExperiences
  cases hr : List.range (qFloorNat (r 0 * 3) + 2) with
  | nil =>
    have := List.length_range (qFloorNat (r 0 * 3) + 2)
    rw [hr] at this
    simp at this
  | cons x xs => simp

theorem learnMany_fails_ne_nil (h : Heap) (a : AgentRef)
    (es : List IExperience) (hne : es ≠ []) (hl : (h a).learnFails = true) :
    learnMany h a es = .error () := by
  cases es with
  | nil => cases hne rfl
  | cons e rest => exact learnMany_fails h a e rest hl

theorem mutateAgent_preserve (h : Heap) (a : AgentRef) (r : ℕ → ℚ)
    (x : AgentRef) (hx : x ≠ a) : (mutateAgent h a r).1 x = h x := by
  unfold mutateAgent
  cases hlm : learnMany h a (generateMutationExperiences r) with
  | ok h' => exact learnMany_preserve _ h a h' hlm x hx
  | error u => rfl

theorem crossoverAgents_avoid (h : Heap) (p1 : AgentRef)
    (p2 : Option AgentRef) (roll : ℚ) (r : ℕ → ℚ) (T : AgentRef)
    (hT : (h T).learnFails = true) (hp1 : p1 ≠ T) :
    (crossoverAgents h p1 p2 roll r).2 ≠ T ∧
    (crossoverAgents h p1 p2 roll r).1 T = h T := by
  unfold crossoverAgents
  split
  · exact ⟨hp1, rfl⟩
  next sel hsel =>
    by_cases hselT : sel = T
    · subst hselT
      rw [learnMany_fails_ne_nil h sel (generateCrossoverExperiences r)
        (generateCrossoverExperiences_ne_nil r) hT]
      exact ⟨hp1, rfl⟩
    · cases hlm : learnMany h sel (generateCrossoverExperiences r) with
      | ok h' =>
        exact ⟨hselT,
          learnMany_preserve _ h sel h' hlm T (fun hTe => hselT hTe.symm)⟩
      | error u => exact ⟨hp1, rfl⟩

theorem applyEvolution_avoid (cfg : EvolutionConfig) (pop : List AgentRef)
    (h : Heap) (a : AgentRef) (rnd : SlotRand) (T : AgentRef)
    (hT : (h T).learnFails = true) (ha : a ≠ T) :
    (applyEvolution cfg pop h a rnd).2 ≠ T ∧
    (applyEvolution cfg pop h a rnd).1 T = h T := by
  unfold applyEvolution
  dsimp only
  have hm2 : (if rnd.mutRoll < cfg.mutationRate then mutateAgent h a rnd.mutR
      else (h, a)).2 = a := by
    split
    · exact mutateAgent_ref h a rnd.mutR
    · rfl
  have hmT : (if rnd.mutRoll < cfg.mutationRate then mutateAgent h a rnd.mutR
      else (h, a)).1 T = h T := by
    split
    · exact mutateAgent_preserve h a rnd.mutR T (fun hTe => ha hTe.symm)
    · rfl
  split
  · have := crossoverAgents_avoid
      (if rnd.mutRoll < cfg.mutationRate then mutateAgent h a rnd.mutR
       else (h, a)).1
      (if rnd.mutRoll < cfg.mutationRate then mutateAgent h a rnd.mutR
       else (h, a)).2
      (selectRandomAgent pop a rnd.otherRoll) rnd.parentRoll rnd.crossR T
      (by rw [hmT]; exact hT) (by rw [hm2]; exact ha)
    exact ⟨this.1, by rw [this.2, hmT]⟩
  · exact ⟨by rw [hm2]; exact ha, hmT⟩

theorem executeAgentOakCycle_avoid (cfg : EvolutionConfig)
    (pop : List AgentRef) (h : Heap) (a : AgentRef) (rnd : SlotRand)
    (T : AgentRef) (hOak : (h T).oakStepFails.getD 0 false = true)
    (hLearn : (h T).learnFails = true) :
    (a = T → executeAgentOakCycle cfg pop h a rnd = (h, T)) ∧
    (a ≠ T → (executeAgentOakCycle cfg pop h a rnd).2 ≠ T ∧
             (executeAgentOakCycle cfg pop h a rnd).1 T = h T) := by
  constructor
  · intro haT
    subst haT
    unfold executeAgentOakCycle runOakSteps
    rw [hOak]
    rfl
  · intro haT
    unfold executeAgentOakCycle
    cases runOakSteps (h a) with
    | ok u => exact applyEvolution_avoid cfg pop h a rnd T hLearn haT
    | error u => exact ⟨haT, rfl⟩

theorem oakCycleGo_count (cfg : EvolutionConfig) (pop : List AgentRef)
    (slotR : ℕ → SlotRand) (T : AgentRef) (l : List AgentRef) :
    ∀ (i : ℕ) (h : Heap),
      (h T).oakStepFails.getD 0 false = true → (h T).learnFails = true →
      ((oakCycleGo cfg pop slotR i h l).2.count T = l.count T ∧
       (oakCycleGo cfg pop slotR i h l).1 T = h T) := by
  induction l with
  | nil => intro i h _ _; exact ⟨rfl, rfl⟩
  | cons a rest ih =>
    intro i h hOak hLearn
    simp only [oakCycleGo]
    by_cases haT : a = T
    · subst haT
      rw [(executeAgentOakCycle_avoid cfg pop h a (slotR i) a hOak hLearn).1
        rfl]
      obtain ⟨hc, hh⟩ := ih (i+1) h hOak hLearn
      refine ⟨?_, hh⟩
      simp [List.count_cons, hc]
    · obtain ⟨hne, hpres⟩ :=
        (executeAgentOakCycle_avoid cfg pop h a (slotR i) T hOak hLearn).2 haT
      obtain ⟨hc, hh⟩ := ih (i+1) (executeAgentOakCycle cfg pop h a (slotR i)).1
        (by rw [hpres]; exact hOak) (by rw [hpres]; exact hLearn)
      refine ⟨?_, by rw [hh, hpres]⟩
      rw [List.count_cons, List.count_cons, hc]
      have h1 : (((executeAgentOakCycle cfg pop h a (slotR i)).2 == T))
          = false := by
        simp [hne]
      have h2 : ((a == T)) = false := by simp [haT]
      rw [h1, h2]

/-- C7: an agent `T` whose every capability call throws (its Oak-cycle calls
throw — the first flag suffices to abort its own slot — and its `learn`
throws), occurring exactly once in the pre-cycle population, occurs exactly
once, unmodified, in the post-cycle population: its own slot returns it
untouched, and no other slot can install it, because a crossover that selects
it as the learning parent hits its throwing `learn` and the error branch
returns the first parent instead. -/
theorem allThrowing_agent_slot_preserved (cfg : EvolutionConfig) (h : Heap)
    (pop : List AgentRef) (slotR : ℕ → SlotRand) (T : AgentRef)
    (hOak : (h T).oakStepFails.getD 0 false = true)
    (hLearn : (h T).learnFails = true)
    (hcount : pop.count T = 1) :
    (executeOakCycle cfg h pop slotR).2.count T = 1 ∧
    (executeOakCycle cfg h pop slotR).1 T = h T := by
  obtain ⟨hc, hh⟩ := oakCycleGo_count cfg pop slotR T pop 0 h hOak hLearn
  unfold executeOakCycle
  exact ⟨by rw [hc]; exact hcount, hh⟩

/-- Witness for C7: the all-throwing agent 0 in a two-agent population. -/
theorem allThrowing_agent_slot_preserved_witness :
    (heapAllThrow0 0).oakStepFails.getD 0 false = true ∧
    (heapAllThrow0 0).learnFails = true ∧
    ([0, 1] : List AgentRef).count 0 = 1 ∧
    ((executeOakCycle cfgUnit heapAllThrow0 [0, 1]
        (fun _ => slotZero)).2.count 0 = 1 ∧
     (executeOakCycle cfgUnit heapAllThrow0 [0, 1]
        (fun _ => slotZero)).1 0 = heapAllThrow0 0) :=
  ⟨rfl, rfl, by decide,
   allThrowing_agent_slot_preserved cfgUnit heapAllThrow0 [0, 1]
     (fun _ => slotZero) 0 rfl rfl (by decide)⟩

/- == C1 == -/

theorem genBody_trace_best (cfg : EvolutionConfig) (sq : ℚ → ℚ)
    (o : GenOracle) (st : LoopState)
    (hP : ∀ p ∈ st.trace, ∀ x ∈ p.2,
      (x : WithBot ℚ) ≤ st.best.bestFitness) :
    ∀ p ∈ (genBody cfg sq o st).1.trace, ∀ x ∈ p.2,
      (x : WithBot ℚ) ≤ (genBody cfg sq o st).1.best.bestFitness := by
  unfold genBody
  dsimp only
  split <;>
  · intro p hp x hx
    rcases List.mem_append.mp hp with hp | hp
    · exact le_trans (hP p hp x hx) (updateBestAgent_mono _ _ _)
    · have hp' := List.mem_singleton.mp hp
      subst hp'
      exact updateBestAgent_ge_scores _ _ _ x hx

theorem genBody_trace_length (cfg : EvolutionConfig) (sq : ℚ → ℚ)
    (o : GenOracle) (st : LoopState) :
    (genBody cfg sq o st).1.trace.length = st.trace.length + 1 := by
  unfold genBody
  dsimp only
  split <;> simp

theorem runAux_best_invariant (cfg : EvolutionConfig) (sq : ℚ → ℚ)
    (oracle : ℕ → GenOracle) (stopB : ℕ → Bool) :
    ∀ (fuel : ℕ) (st : LoopState),
      (∀ p ∈ st.trace, ∀ x ∈ p.2, (x : WithBot ℚ) ≤ st.best.bestFitness) →
      ∀ p ∈ (runAux cfg sq oracle stopB fuel st).trace, ∀ x ∈ p.2,
        (x : WithBot ℚ) ≤ (runAux cfg sq oracle stopB fuel st).bestFitness := by
  intro fuel
  induction fuel with
  | zero => intro st hP; exact hP
  | succ n ih =>
    intro st hP
    unfold runAux
    split
    · rcases hgb : genBody cfg sq (oracle st.generation) st with ⟨st2, flag⟩
      have hP' : ∀ p ∈ st2.trace, ∀ x ∈ p.2,
          (x : WithBot ℚ) ≤ st2.best.bestFitness := by
        have hall := genBody_trace_best cfg sq (oracle st.generation) st hP
        rw [hgb] at hall
        exact hall
      cases flag
      · exact ih st2 hP'
      · exact hP'
    · exact hP

theorem runAux_trace_le (cfg : EvolutionConfig) (sq : ℚ → ℚ)
    (oracle : ℕ → GenOracle) (stopB : ℕ → Bool) :
    ∀ (fuel : ℕ) (st : LoopState),
      st.trace.length ≤ (runAux cfg sq oracle stopB fuel st).trace.length := by
  intro fuel
  induction fuel with
  | zero => intro st; exact le_refl _
  | succ n ih =>
    intro st
    unfold runAux
    split
    · rcases hgb : genBody cfg sq (oracle st.generation) st with ⟨st2, flag⟩
      have hlen : st2.trace.length = st.trace.length + 1 := by
        have hl := genBody_trace_length cfg sq (oracle st.generation) st
        rw [hgb] at hl
        exact hl
      cases flag
      · exact le_trans (by omega) (ih st2)
      · show st.trace.length ≤ st2.trace.length
        omega
    · exact le_refl _

theorem runAux_succ_pos (cfg : EvolutionConfig) (sq : ℚ → ℚ)
    (oracle : ℕ → GenOracle) (stopB : ℕ → Bool) (n : ℕ) (st : LoopState)
    (hg : stopB st.generation = false ∧ st.generation < cfg.generationLimit) :
    runAux cfg sq oracle stopB (n+1) st =
      (match genBody cfg sq (oracle st.generation) st with
       | (st2, true) => finishRun st2
       | (st2, false) => runAux cfg sq oracle stopB n st2) := by
  conv_lhs => unfold runAux
  rw [if_pos hg]

theorem run_trace_ne_nil (cfg : EvolutionConfig) (sq : ℚ → ℚ) (hp : Heap)
    (pop : List AgentRef) (oracle : ℕ → GenOracle) (stopB : ℕ → Bool)
    (h2 : 0 < cfg.generationLimit) (h3 : stopB 0 = false) :
    (run cfg sq hp pop oracle stopB).trace ≠ [] := by
  unfold run
  obtain ⟨n, hn⟩ : ∃ n, cfg.generationLimit = n + 1 :=
    ⟨cfg.generationLimit - 1, by omega⟩
  rw [hn, runAux_succ_pos cfg sq oracle stopB n _ ⟨h3, h2⟩]
  rcases hgb : genBody cfg sq (oracle 0)
      { heap := hp, population := pop, generation := 0, best := {},
        metrics := [], trace := [] } with ⟨st2, flag⟩
  have hlen : st2.trace.length = 1 := by
    have hl := genBody_trace_length cfg sq (oracle 0)
      { heap := hp, population := pop, generation := 0, best := {},
        metrics := [], trace := [] }
    rw [hgb] at hl
    exact hl
  cases flag
  · apply List.length_pos.mp
    show 0 < (runAux cfg sq oracle stopB n st2).trace.length
    have hle := runAux_trace_le cfg sq oracle stopB n st2
    omega
  · apply List.length_pos.mp
    show 0 < st2.trace.length
    omega

/-- C1: over any run that executes at least one generation (positive generation
limit, no stop request before the first check) from a non-empty initial
population, the final tracked best fitness is at least the fitness of every
agent evaluated in every executed generation (running-maximum invariant); and
at each generation `updateBestAgent` replaces the tracked pair exactly when the
generation's maximum fitness strictly exceeds the best seen so far — on
replacement the tracked fitness becomes that maximum, otherwise the pair is
left untouched. -/
theorem run_best_is_running_max (cfg : EvolutionConfig) (sq : ℚ → ℚ)
    (hp : Heap) (pop : List AgentRef) (oracle : ℕ → GenOracle)
    (stopB : ℕ → Bool) (_h1 : pop ≠ []) (h2 : 0 < cfg.generationLimit)
    (h3 : stopB 0 = false) :
    (run cfg sq hp pop oracle stopB).trace ≠ [] ∧
    (∀ p ∈ (run cfg sq hp pop oracle stopB).trace, ∀ x ∈ p.2,
      (x : WithBot ℚ) ≤ (run cfg sq hp pop oracle stopB).bestFitness) ∧
    (∀ (st : BestState) (pop2 : List AgentRef) (scores : List ℚ),
      (¬ st.bestFitness < listMax scores →
        updateBestAgent st pop2 scores = st) ∧
      (st.bestFitness < listMax scores →
        (updateBestAgent st pop2 scores).bestFitness = listMax scores)) := by
  refine ⟨run_trace_ne_nil cfg sq hp pop oracle stopB h2 h3, ?_,
    fun st pop2 scores => ⟨updateBestAgent_of_not_gt st pop2 scores,
      updateBestAgent_of_gt st pop2 scores⟩⟩
  exact runAux_best_invariant cfg sq oracle stopB cfg.generationLimit _
    (fun p hp _ _ => absurd hp (List.not_mem_nil p))

/-- Witness for C1 at the minimal one-generation run. -/
theorem run_best_is_running_max_witness :
    ([0] : List AgentRef) ≠ [] ∧ 0 < cfgUnit.generationLimit ∧
    neverStop 0 = false ∧
    (run cfgUnit id heapOk [0] oracleZero neverStop).trace ≠ [] :=
  ⟨by decide, by decide, rfl,
   (run_best_is_running_max cfgUnit id heapOk [0] oracleZero neverStop
     (by decide) (by decide) rfl).1⟩

/- == C8 == -/

theorem executeAgentOakCycle_limit_irrel (cfg : EvolutionConfig) (m : ℕ)
    (pop : List AgentRef) (h : Heap) (a : AgentRef) (rnd : SlotRand) :
    executeAgentOakCycle { cfg with generationLimit := m } pop h a rnd
      = executeAgentOakCycle cfg pop h a rnd := rfl

theorem oakCycleGo_limit_irrel (cfg : EvolutionConfig) (m : ℕ)
    (pop : List AgentRef) (slotR : ℕ → SlotRand) (l : List AgentRef) :
    ∀ (i : ℕ) (h : Heap),
      oakCycleGo { cfg with generationLimit := m } pop slotR i h l
        = oakCycleGo cfg pop slotR i h l := by
  induction l with
  | nil => intro i h; rfl
  | cons a rest ih =>
    intro i h
    simp only [oakCycleGo, executeAgentOakCycle_limit_irrel, ih]

theorem evalPopGo_limit_irrel (cfg : EvolutionConfig) (m : ℕ)
    (evalR : ℕ → EvalRand) (l : List AgentRef) :
    ∀ (i : ℕ) (h : Heap),
      evalPopGo { cfg with generationLimit := m } evalR i h l
        = evalPopGo cfg evalR i h l := by
  induction l with
  | nil => intro i h; rfl
  | cons a rest ih =>
    intro i h
    have hev : evaluateAgent { cfg with generationLimit := m } h a (evalR i)
        = evaluateAgent cfg h a (evalR i) := rfl
    simp only [evalPopGo, hev, ih]

theorem genBody_limit_irrel (cfg : EvolutionConfig) (m : ℕ) (sq : ℚ → ℚ)
    (o : GenOracle) (st : LoopState) :
    genBody { cfg with generationLimit := m } sq o st = genBody cfg sq o st := by
  unfold genBody executeOakCycle evaluatePopulation
  simp only [oakCycleGo_limit_irrel, evalPopGo_limit_irrel,
    show hasConverged { cfg with generationLimit := m } = hasConverged cfg
      from rfl,
    show selectNextGeneration { cfg with generationLimit := m }
      = selectNextGeneration cfg from rfl]

theorem genBody_generation_of_false (cfg : EvolutionConfig) (sq : ℚ → ℚ)
    (o : GenOracle) (st st2 : LoopState)
    (hgb : genBody cfg sq o st = (st2, false)) :
    st2.generation = st.generation + 1 := by
  unfold genBody at hgb
  dsimp only at hgb
  split at hgb
  · cases hgb
  · cases hgb
    rfl

theorem runAux_of_limit_le (cfg : EvolutionConfig) (sq : ℚ → ℚ)
    (oracle : ℕ → GenOracle) (stopB : ℕ → Bool) (fuel : ℕ) (st : LoopState)
    (hge : cfg.generationLimit ≤ st.generation) :
    runAux cfg sq oracle stopB fuel st = finishRun st := by
  cases fuel with
  | zero => rfl
  | succ n =>
    unfold runAux
    rw [if_neg]
    intro hc
    omega

theorem runAux_fuel_irrel (cfg : EvolutionConfig) (sq : ℚ → ℚ)
    (oracle : ℕ → GenOracle) (stopB : ℕ → Bool) :
    ∀ (f1 f2 : ℕ) (st : LoopState),
      cfg.generationLimit ≤ st.generation + f1 →
      cfg.generationLimit ≤ st.generation + f2 →
      runAux cfg sq oracle stopB f1 st = runAux cfg sq oracle stopB f2 st := by
  intro f1
  induction f1 with
  | zero =>
    intro f2 st h1 h2
    rw [runAux_of_limit_le cfg sq oracle stopB f2 st (by omega)]
    rfl
  | succ n ih =>
    intro f2 st h1 h2
    cases f2 with
    | zero =>
      rw [runAux_of_limit_le cfg sq oracle stopB (n+1) st (by omega)]
      rfl
    | succ p =>
      unfold runAux
      by_cases hg : stopB st.generation = false ∧
          st.generation < cfg.generationLimit
      · rw [if_pos hg, if_pos hg]
        rcases hgb : genBody cfg sq (oracle st.generation) st with ⟨st2, flag⟩
        cases flag
        · have hgen := genBody_generation_of_false cfg sq
            (oracle st.generation) st st2 hgb
          exact ih p st2 (by omega) (by omega)
        · rfl
      · rw [if_neg hg, if_neg hg]

theorem runAux_stop_eq (cfg : EvolutionConfig) (sq : ℚ → ℚ)
    (oracle : ℕ → GenOracle) (k : ℕ) :
    ∀ (fuel : ℕ) (st : LoopState),
      runAux cfg sq oracle (fun g => decide (k ≤ g)) fuel st =
      runAux { cfg with generationLimit := min cfg.generationLimit k } sq
        oracle (fun _ => false) fuel st := by
  have hgl : ({ cfg with generationLimit := min cfg.generationLimit k } :
      EvolutionConfig).generationLimit = min cfg.generationLimit k := rfl
  intro fuel
  induction fuel with
  | zero => intro st; rfl
  | succ n ih =>
    intro st
    unfold runAux
    by_cases hg : st.generation < cfg.generationLimit ∧ st.generation < k
    · rw [if_pos ⟨decide_eq_false_iff_not.mpr (by omega), hg.1⟩,
        if_pos ⟨rfl, by rw [hgl]; exact lt_min_iff.mpr ⟨hg.1, hg.2⟩⟩,
        genBody_limit_irrel cfg (min cfg.generationLimit k) sq
          (oracle st.generation) st]
      rcases genBody cfg sq (oracle st.generation) st with ⟨st2, flag⟩
      cases flag
      · exact ih st2
      · rfl
    · rw [if_neg (fun hc => hg ⟨hc.2, by
          have hd := hc.1
          rw [decide_eq_false_iff_not] at hd
          omega⟩),
        if_neg (fun hc => hg (by
          have hd := hc.2
          rw [hgl] at hd
          exact lt_min_iff.mp hd))]

theorem runAux_trace_le_fuel (cfg : EvolutionConfig) (sq : ℚ → ℚ)
    (oracle : ℕ → GenOracle) (stopB : ℕ → Bool) :
    ∀ (fuel : ℕ) (st : LoopState),
      (runAux cfg sq oracle stopB fuel st).trace.length
        ≤ st.trace.length + fuel := by
  intro fuel
  induction fuel with
  | zero => intro st; exact le_refl _
  | succ n ih =>
    intro st
    unfold runAux
    split
    · rcases hgb : genBody cfg sq (oracle st.generation) st with ⟨st2, flag⟩
      have hlen : st2.trace.length = st.trace.length + 1 := by
        have hl := genBody_trace_length cfg sq (oracle st.generation) st
        rw [hgb] at hl
        exact hl
      cases flag
      · show (runAux cfg sq oracle stopB n st2).trace.length
          ≤ st.trace.length + (n+1)
        have := ih st2
        omega
      · show st2.trace.length ≤ st.trace.length + (n+1)
        omega
    · show st.trace.length ≤ st.trace.length + (n+1)
      omega

/-- C8: a stop request that takes effect at the check before generation `k`
(the `stopBefore` family `k ≤ g`: `stop()` was called while generation `k-1`
was in flight or earlier) makes the run behave exactly like an unstopped run
whose generation limit is clipped to `k`: the generation in flight completes,
no later generation's Oak cycle ever begins (at most `k` generations are ever
traced), and the returned best agent is the one tracked over the generations
completed before the stop took effect. -/
theorem stop_terminates_at_generation_boundary (cfg : EvolutionConfig)
    (sq : ℚ → ℚ) (hp : Heap) (pop : List AgentRef) (oracle : ℕ → GenOracle)
    (k : ℕ) :
    run cfg sq hp pop oracle (fun g => decide (k ≤ g)) =
      run { cfg with generationLimit := min cfg.generationLimit k } sq hp pop
        oracle (fun _ => false) ∧
    (run cfg sq hp pop oracle (fun g => decide (k ≤ g))).trace.length ≤ k := by
  have heq : run cfg sq hp pop oracle (fun g => decide (k ≤ g)) =
      run { cfg with generationLimit := min cfg.generationLimit k } sq hp pop
        oracle (fun _ => false) := by
    unfold run
    rw [runAux_stop_eq cfg sq oracle k cfg.generationLimit _]
    exact runAux_fuel_irrel _ sq oracle (fun _ => false)
      cfg.generationLimit (min cfg.generationLimit k) _
      (by show min cfg.generationLimit k ≤ 0 + cfg.generationLimit; omega)
      (by show min cfg.generationLimit k ≤ 0 + min cfg.generationLimit k
          omega)
  refine ⟨heq, ?_⟩
  rw [heq]
  unfold run
  have hb := runAux_trace_le_fuel
    { cfg with generationLimit := min cfg.generationLimit k } sq oracle
    (fun _ => false) (min cfg.generationLimit k)
    { heap := hp, population := pop, generation := 0, best := {},
      metrics := [], trace := [] }
  simp only [List.length_nil] at hb
  calc (runAux { cfg with generationLimit := min cfg.generationLimit k } sq
      oracle (fun _ => false) (min cfg.generationLimit k)
      { heap := hp, population := pop, generation := 0, best := {},
        metrics := [], trace := [] }).trace.length
      ≤ 0 + min cfg.generationLimit k := hb
    _ ≤ k := by omega

/- == C3 == -/

/-- C3 counterexample: a concrete two-generation run (population of one
well-behaved agent; generation 0 scores -1/2, generation 1 scores 0).  The
metrics entry of generation 1 records convergenceRate 0, while the absolute
difference between the best fitness of generations 1 and 0 is 1/2:
`calculateConvergenceRate` reads `this.metrics` before the current
generation's record is pushed, so the recorded rate lags one generation behind
what the claim states. -/
theorem convergenceRate_lags_counterexample :
    (run cfgTwoGen id heapOk [0] oracleC3 neverStop).metrics.length = 2 ∧
    ((run cfgTwoGen id heapOk [0] oracleC3 neverStop).metrics.getD 1
      mZero).convergenceRate = 0 ∧
    absDiffWB ((run cfgTwoGen id heapOk [0] oracleC3 neverStop).metrics.getD 1
        mZero).bestFitness
      ((run cfgTwoGen id heapOk [0] oracleC3 neverStop).metrics.getD 0
        mZero).bestFitness = 1/2 ∧
    ((run cfgTwoGen id heapOk [0] oracleC3 neverStop).metrics.getD 1
      mZero).convergenceRate ≠
      absDiffWB ((run cfgTwoGen id heapOk [0] oracleC3
          neverStop).metrics.getD 1 mZero).bestFitness
        ((run cfgTwoGen id heapOk [0] oracleC3 neverStop).metrics.getD 0
          mZero).bestFitness := by
  set_option maxRecDepth 100000 in
  refine ⟨?_, ?_, ?_, ?_⟩ <;> with_unfolding_all decide

theorem calculateConvergenceRate_at (ms : List EvolutionMetrics) (i : ℕ)
    (hi : ms.length = i + 2) :
    calculateConvergenceRate ms =
      absDiffWB (ms.getD (i+1) mZero).bestFitness
        (ms.getD i mZero).bestFitness := by
  unfold calculateConvergenceRate
  rw [hi, if_neg (by omega)]
  have e1 : i + 2 - 1 = i + 1 := by omega
  have e2 : i + 2 - 2 = i := by omega
  rw [e1, e2]

theorem calculateConvergenceRate_short (ms : List EvolutionMetrics)
    (hi : ms.length < 2) : calculateConvergenceRate ms = 0 := by
  unfold calculateConvergenceRate
  rw [if_pos hi]

theorem metricsLag_append (ms : List EvolutionMetrics) (m : EvolutionMetrics)
    (hm : m.convergenceRate = calculateConvergenceRate ms)
    (h0 : ∀ i, i < ms.length → i < 2 →
      (ms.getD i mZero).convergenceRate = 0)
    (h2 : ∀ i, i + 2 < ms.length → (ms.getD (i+2) mZero).convergenceRate
      = absDiffWB (ms.getD (i+1) mZero).bestFitness
          (ms.getD i mZero).bestFitness) :
    (∀ i, i < (ms ++ [m]).length → i < 2 →
      ((ms ++ [m]).getD i mZero).convergenceRate = 0) ∧
    (∀ i, i + 2 < (ms ++ [m]).length →
      ((ms ++ [m]).getD (i+2) mZero).convergenceRate
        = absDiffWB ((ms ++ [m]).getD (i+1) mZero).bestFitness
            ((ms ++ [m]).getD i mZero).bestFitness) := by
  have hlen : (ms ++ [m]).length = ms.length + 1 := by simp
  constructor
  · intro i hi hi2
    by_cases him : i < ms.length
    · rw [List.getD_append _ _ _ _ him]
      exact h0 i him hi2
    · have hieq : i = ms.length := by omega
      subst hieq
      rw [List.getD_append_right _ _ _ _ (le_refl _), Nat.sub_self]
      show m.convergenceRate = 0
      rw [hm]
      exact calculateConvergenceRate_short ms (by omega)
  · intro i hi
    by_cases him : i + 2 < ms.length
    · rw [List.getD_append _ _ _ _ him,
        List.getD_append _ _ _ _ (by omega),
        List.getD_append _ _ _ _ (by omega)]
      exact h2 i him
    · have hieq : i + 2 = ms.length := by omega
      rw [show i + 2 = ms.length from hieq,
        List.getD_append_right _ _ _ _ (le_refl _), Nat.sub_self]
      rw [List.getD_append _ _ _ _ (by omega),
        List.getD_append _ _ _ _ (by omega)]
      show m.convergenceRate = _
      rw [hm]
      exact calculateConvergenceRate_at ms i hieq.symm

theorem genBody_metrics_shape (cfg : EvolutionConfig) (sq : ℚ → ℚ)
    (o : GenOracle) (st : LoopState) :
    ∃ scores, (genBody cfg sq o st).1.metrics = st.metrics ++
      [calculateMetrics st.generation st.metrics sq scores o.runtime] := by
  unfold genBody
  dsimp only
  split
  · exact ⟨_, rfl⟩
  · exact ⟨_, rfl⟩

theorem runAux_metrics_lag (cfg : EvolutionConfig) (sq : ℚ → ℚ)
    (oracle : ℕ → GenOracle) (stopB : ℕ → Bool) :
    ∀ (fuel : ℕ) (st : LoopState),
      (∀ i, i < st.metrics.length → i < 2 →
        (st.metrics.getD i mZero).convergenceRate = 0) →
      (∀ i, i + 2 < st.metrics.length →
        (st.metrics.getD (i+2) mZero).convergenceRate
          = absDiffWB (st.metrics.getD (i+1) mZero).bestFitness
              (st.metrics.getD i mZero).bestFitness) →
      ((∀ i, i < (runAux cfg sq oracle stopB fuel st).metrics.length → i < 2 →
        ((runAux cfg sq oracle stopB fuel st).metrics.getD i
          mZero).convergenceRate = 0) ∧
       (∀ i, i + 2 < (runAux cfg sq oracle stopB fuel st).metrics.length →
        ((runAux cfg sq oracle stopB fuel st).metrics.getD (i+2)
          mZero).convergenceRate
          = absDiffWB ((runAux cfg sq oracle stopB fuel st).metrics.getD (i+1)
              mZero).bestFitness
            ((runAux cfg sq oracle stopB fuel st).metrics.getD i
              mZero).bestFitness)) := by
  intro fuel
  induction fuel with
  | zero => intro st h0 h2; exact ⟨h0, h2⟩
  | succ n ih =>
    intro st h0 h2
    unfold runAux
    split
    · rcases hgb : genBody cfg sq (oracle st.generation) st with ⟨st2, flag⟩
      have hsh := genBody_metrics_shape cfg sq (oracle st.generation) st
      rw [hgb] at hsh
      obtain ⟨scores, hsc⟩ := hsh
      have hlag := metricsLag_append st.metrics
        (calculateMetrics st.generation st.metrics sq scores
          (oracle st.generation).runtime) rfl h0 h2
      rw [← hsc] at hlag
      cases flag
      · exact ih st2 hlag.1 hlag.2
      · exact hlag
    · exact ⟨h0, h2⟩

/-- C3 amended: for every run, the convergenceRate recorded in generation g's
metrics entry is the absolute difference between the best fitness of
generations g-1 and g-2 (the rate is computed from the metrics array before
the new record is pushed, so it lags one generation); it is 0 for the first
two generations (g < 2), where fewer than two prior records exist. -/
theorem convergenceRate_lags_one_generation (cfg : EvolutionConfig)
    (sq : ℚ → ℚ) (hp : Heap) (pop : List AgentRef) (oracle : ℕ → GenOracle)
    (stopB : ℕ → Bool) :
    (∀ i, i < (run cfg sq hp pop oracle stopB).metrics.length → i < 2 →
      (((run cfg sq hp pop oracle stopB).metrics.getD i
        mZero)).convergenceRate = 0) ∧
    (∀ i, i + 2 < (run cfg sq hp pop oracle stopB).metrics.length →
      (((run cfg sq hp pop oracle stopB).metrics.getD (i+2)
        mZero)).convergenceRate
        = absDiffWB (((run cfg sq hp pop oracle stopB).metrics.getD (i+1)
            mZero)).bestFitness
          (((run cfg sq hp pop oracle stopB).metrics.getD i
            mZero)).bestFitness) := by
  unfold run
  exact runAux_metrics_lag cfg sq oracle stopB cfg.generationLimit _
    (fun i hi _ => absurd hi (by simp)) (fun i hi => absurd hi (by simp))

/-- Witness for the amended C3 at the minimal one-generation run. -/
theorem convergenceRate_lags_one_generation_witness :
    0 < (run cfgUnit id heapOk [0] oracleZero neverStop).metrics.length ∧
    ((run cfgUnit id heapOk [0] oracleZero
      neverStop).metrics.getD 0 mZero).convergenceRate = 0 :=
  ⟨by with_unfolding_all decide,
   (convergenceRate_lags_one_generation cfgUnit id heapOk [0] oracleZero
     neverStop).1 0 (by with_unfolding_all decide) (by decide)⟩

/- == C5 == -/

theorem enum_pairwise_fst_lt (scores : List ℚ) :
    scores.enum.Pairwise (fun a b => a.1 < b.1) := by
  have h := List.pairwise_lt_range scores.length
  rw [← List.enum_map_fst scores] at h
  exact List.pairwise_map.mp h

theorem enum_nodup (scores : List ℚ) : scores.enum.Nodup := by
  apply (enum_pairwise_fst_lt scores).imp
  intro a b hab he
  rw [he] at hab
  exact lt_irrefl _ hab

theorem mem_enum_getD (scores : List ℚ) (x : ℕ × ℚ) (hx : x ∈ scores.enum) :
    x.2 = scores.getD x.1 0 ∧ x.1 < scores.length := by
  obtain ⟨n, hn, hget⟩ := List.mem_iff_getElem.mp hx
  rw [List.getElem_enum] at hget
  have hn' : n < scores.length := by
    rw [List.enum_length] at hn
    exact hn
  subst hget
  exact ⟨(List.getD_eq_getElem scores 0 hn').symm, hn'⟩

theorem sublist_pair_of_indices (l : List (ℕ × ℚ)) :
    l.Pairwise (fun a b => a.1 < b.1) →
    ∀ x y : ℕ × ℚ, x ∈ l → y ∈ l → y.1 < x.1 → [y, x].Sublist l := by
  induction l with
  | nil => intro _ x y hx _ _; cases hx
  | cons a t ih =>
    intro hp x y hx hy hlt
    have ha := List.pairwise_cons.mp hp
    rcases List.mem_cons.mp hy with hya | hyt
    · subst hya
      rcases List.mem_cons.mp hx with hxa | hxt
      · subst hxa
        exact absurd hlt (lt_irrefl _)
      · exact List.Sublist.cons₂ _ (List.singleton_sublist.mpr hxt)
    · rcases List.mem_cons.mp hx with hxa | hxt
      · subst hxa
        have h1 := ha.1 y hyt
        omega
      · exact List.Sublist.cons _ (ih ha.2 x y hxt hyt hlt)

theorem sublist_pair_antisymm (s : List (ℕ × ℚ)) :
    s.Nodup → ∀ x y : ℕ × ℚ, [x, y].Sublist s → [y, x].Sublist s → x = y := by
  induction s with
  | nil =>
    intro _ x y hxy
    intro _
    exact absurd (hxy.subset (List.mem_cons_self x [y])) (List.not_mem_nil x)
  | cons a t ih =>
    intro hnd x y hxy hyx
    have hat := List.nodup_cons.mp hnd
    cases hxy with
    | cons _ hxy' =>
      cases hyx with
      | cons _ hyx' => exact ih hat.2 x y hxy' hyx'
      | cons₂ _ hyx' =>
        exfalso
        exact hat.1 (hxy'.subset (List.mem_cons_of_mem x
          (List.mem_cons_self a [])))
    | cons₂ _ hxy' =>
      cases hyx with
      | cons _ hyx' =>
        exfalso
        exact hat.1 (hyx'.subset (List.mem_cons_of_mem y
          (List.mem_cons_self a [])))
      | cons₂ _ hyx' => rfl

theorem sortedFitnessIndices_pairwise (scores : List ℚ) :
    (sortedFitnessIndices scores).Pairwise (fun i j =>
      scores.getD j 0 < scores.getD i 0 ∨
      (scores.getD i 0 = scores.getD j 0 ∧ i < j)) := by
  unfold sortedFitnessIndices
  apply List.pairwise_map.mpr
  have htrans : ∀ (a b c : ℕ × ℚ), (decide (b.2 ≤ a.2)) = true →
      (decide (c.2 ≤ b.2)) = true → (decide (c.2 ≤ a.2)) = true := by
    intro a b c h1 h2
    rw [decide_eq_true_iff] at h1 h2 ⊢
    exact le_trans h2 h1
  have htotal : ∀ (a b : ℕ × ℚ),
      ((decide (b.2 ≤ a.2)) || (decide (a.2 ≤ b.2))) = true := by
    intro a b
    rcases le_total b.2 a.2 with h | h
    · simp [h]
    · simp [h]
  have hsorted := List.sorted_mergeSort htrans htotal scores.enum
  have hperm := List.mergeSort_perm scores.enum
    (fun a b => decide (b.2 ≤ a.2))
  have hnd : (scores.enum.mergeSort
      (fun a b => decide (b.2 ≤ a.2))).Nodup :=
    hperm.symm.nodup (enum_nodup scores)
  apply List.pairwise_iff_forall_sublist.mpr
  intro x y hsub
  have hxmem : x ∈ scores.enum :=
    hperm.mem_iff.mp (hsub.subset (List.mem_cons_self x [y]))
  have hymem : y ∈ scores.enum :=
    hperm.mem_iff.mp (hsub.subset (List.mem_cons_of_mem x
      (List.mem_cons_self y [])))
  obtain ⟨hx2, _⟩ := mem_enum_getD scores x hxmem
  obtain ⟨hy2, _⟩ := mem_enum_getD scores y hymem
  have hle : y.2 ≤ x.2 := by
    have hp := List.pairwise_iff_forall_sublist.mp hsorted hsub
    rw [decide_eq_true_iff] at hp
    exact hp
  rcases lt_or_eq_of_le hle with hlt | heq
  · left
    rw [← hx2, ← hy2]
    exact hlt
  · right
    refine ⟨by rw [← hx2, ← hy2, heq], ?_⟩
    by_contra hnlt
    push_neg at hnlt
    have hne : x ≠ y := by
      intro he
      have hnds := List.Nodup.sublist hsub hnd
      rw [he] at hnds
      simp [List.nodup_cons] at hnds
    have hyx1 : y.1 < x.1 := by
      rcases Nat.lt_or_ge y.1 x.1 with h | h
      · exact h
      · exfalso
        have hx1y1 : x.1 = y.1 := by omega
        exact hne (Prod.ext hx1y1 heq.symm)
    have hsub2 : [y, x].Sublist scores.enum :=
      sublist_pair_of_indices scores.enum (enum_pairwise_fst_lt scores)
        x y hxmem hymem hyx1
    have hpw : [y, x].Pairwise
        (fun a b => (decide (b.2 ≤ a.2) : Bool) = true) := by
      rw [List.pairwise_cons]
      refine ⟨?_, by simp⟩
      intro b hb
      rw [List.mem_singleton.mp hb, decide_eq_true_iff]
      rw [heq]
    have hsub3 := List.sublist_mergeSort htrans htotal hpw hsub2
    exact hne (sublist_pair_antisymm _ hnd x y hsub hsub3)

theorem sortedFitnessIndices_length (scores : List ℚ) :
    (sortedFitnessIndices scores).length = scores.length := by
  unfold sortedFitnessIndices
  rw [List.length_map, List.length_mergeSort, List.enum_length]

theorem eliteSelection_length (cfg : EvolutionConfig) (pop : List AgentRef)
    (scores : List ℚ) (hsc : scores.length = cfg.populationSize) :
    (eliteSelection cfg pop scores).length
      = min cfg.eliteSize cfg.populationSize := by
  unfold eliteSelection
  rw [List.length_map, List.length_take, sortedFitnessIndices_length, hsc]
  omega

/-- C5: in every generation the elitism phase copies exactly
`min(eliteSize, populationSize)` agents verbatim; the copied prefix is a pure
function of the fitness array — identical for any two draws of the tournament
randomness used elsewhere; the underlying index order is descending in fitness
with ties broken by original index (the stable JS sort); every elite index
carries a fitness at least that of every non-elite index; and the elite agents
are exactly the population members at the top sorted indices. -/
theorem elitism_deterministic_top (cfg : EvolutionConfig)
    (pop : List AgentRef) (scores : List ℚ)
    (_hpop : pop.length = cfg.populationSize)
    (hsc : scores.length = cfg.populationSize) :
    (eliteSelection cfg pop scores).length
      = min cfg.eliteSize cfg.populationSize ∧
    (∀ r1 r2 : ℕ → ℕ → ℚ,
      (selectNextGeneration cfg pop scores r1).take
          (min cfg.eliteSize cfg.populationSize)
        = (selectNextGeneration cfg pop scores r2).take
          (min cfg.eliteSize cfg.populationSize)) ∧
    (sortedFitnessIndices scores).Pairwise (fun i j =>
      scores.getD j 0 < scores.getD i 0 ∨
      (scores.getD i 0 = scores.getD j 0 ∧ i < j)) ∧
    (∀ i ∈ (sortedFitnessIndices scores).take
        (min cfg.eliteSize cfg.populationSize),
     ∀ j ∈ (sortedFitnessIndices scores).drop
        (min cfg.eliteSize cfg.populationSize),
      scores.getD j 0 ≤ scores.getD i 0) ∧
    eliteSelection cfg pop scores
      = ((sortedFitnessIndices scores).take
          (min cfg.eliteSize cfg.populationSize)).map
          (fun i => pop.getD i 0) := by
  have htake : ∀ r : ℕ → ℕ → ℚ,
      (selectNextGeneration cfg pop scores r).take
          (min cfg.eliteSize cfg.populationSize)
        = eliteSelection cfg pop scores := by
    intro r
    unfold selectNextGeneration
    rw [← eliteSelection_length cfg pop scores hsc]
    exact List.take_left _ _
  refine ⟨eliteSelection_length cfg pop scores hsc,
    fun r1 r2 => by rw [htake r1, htake r2],
    sortedFitnessIndices_pairwise scores, ?_, ?_⟩
  · have hpw_le : (sortedFitnessIndices scores).Pairwise (fun i j =>
        scores.getD j 0 ≤ scores.getD i 0) := by
      apply (sortedFitnessIndices_pairwise scores).imp
      intro i j hij
      rcases hij with h | h
      · exact le_of_lt h
      · exact le_of_eq h.1.symm
    have hsplit := List.take_append_drop
      (min cfg.eliteSize cfg.populationSize) (sortedFitnessIndices scores)
    rw [← hsplit] at hpw_le
    exact (List.pairwise_append.mp hpw_le).2.2
  · unfold eliteSelection
    dsimp only
    rw [sortedFitnessIndices_length, hsc]

/-- Witness for C5 at a singleton population. -/
theorem elitism_deterministic_top_witness :
    ([0] : List AgentRef).length = cfgUnit.populationSize ∧
    ([(0:ℚ)] : List ℚ).length = cfgUnit.populationSize ∧
    (eliteSelection cfgUnit [0] [0]).length
      = min cfgUnit.eliteSize cfgUnit.populationSize :=
  ⟨by decide, by decide,
   (elitism_deterministic_top cfgUnit [0] [0] (by decide) (by decide)).1⟩

end OakSpec
